import Mathlib

/-!
Verification of the Synaccess netBooter B-Series Companion module
(protocol codec, serialized HTTP transport, reboot sequencer, poll
scheduler).  The JavaScript sources are shallowly embedded: strings are
`List Char`, JS numbers are a `JsNum` type (NaN / infinities / rationals),
promise-chain scheduling is rendered as the deterministic event trace the
single-threaded event loop produces, and the mutable instance state is
threaded explicitly.
-/

namespace NetBooter

/- ----------------------------------------------------------------- -/
/- JS string primitives used by the module                            -/
/- ----------------------------------------------------------------- -/

/-- Whitespace recognized by JavaScript `String.prototype.trim` (the ASCII
whitespace characters plus NBSP and the BOM; other Unicode space
separators behave the same way and never occur in device replies). -/
def isJsWhitespace (c : Char) : Bool :=
  c = ' ' || c = '\t' || c = '\n' || c = '\r' || c = '\x0b' || c = '\x0c' ||
  c = ' ' || c = '﻿'

/-- Embedding of `String.prototype.trim`: drop whitespace from both ends. -/
def jsTrim (l : List Char) : List Char :=
  ((l.dropWhile isJsWhitespace).reverse.dropWhile isJsWhitespace).reverse

/-- Embedding of `String.prototype.split(sep)` for a one-character
separator: `"a,b"` gives `["a", "b"]` and `""` gives `[""]`. -/
def splitOnChar (sep : Char) : List Char → List (List Char)
  | [] => [[]]
  | c :: rest =>
    match splitOnChar sep rest with
    | [] => [[c]]
    | cur :: parts =>
      if c = sep then [] :: cur :: parts else (c :: cur) :: parts

/-- Embedding of `String.prototype.startsWith`. -/
def startsWithChars : List Char → List Char → Bool
  | _, [] => true
  | [], _ :: _ => false
  | c :: rest, p :: ps => c = p && startsWithChars rest ps

/-- Embedding of `String.prototype.indexOf(',')`-style search: position of
the first occurrence of `c`, if any. -/
def indexOfChar (c : Char) : List Char → Option Nat
  | [] => none
  | a :: rest =>
    if a = c then some 0
    else match indexOfChar c rest with
         | some i => some (i + 1)
         | none => none

/-- Worker for `replace(/ +/g, rep)`: `inRun` records whether the previous
character was part of a space run already rewritten to `rep`. -/
def replRunsAux (rep : Char) : Bool → List Char → List Char
  | _, [] => []
  | inRun, a :: rest =>
    if a = ' ' then
      (if inRun then [] else [rep]) ++ replRunsAux rep true rest
    else a :: replRunsAux rep false rest

/-- Embedding of `String.prototype.replace(/ +/g, rep)`: every maximal run
of space characters becomes the single character `rep`. -/
def replRuns (rep : Char) (l : List Char) : List Char :=
  replRunsAux rep false l

/- ----------------------------------------------------------------- -/
/- Codec (src/config.js protocol utilities)                           -/
/- ----------------------------------------------------------------- -/

/-- `normalizeCmd` from src/config.js:
`String(cmd or '').trim().replace(/ +/g, '+')`. -/
def normalizeCmd (cmd : List Char) : List Char :=
  replRuns '+' (jsTrim cmd)

/-- The decoder named by the spec: each `'+'` back to one space. -/
def decodePlus (l : List Char) : List Char :=
  l.map (fun c => if c = '+' then ' ' else c)

/-- The spec's space normalization: trim, then collapse each maximal run
of spaces to a single space. -/
def spaceNormalize (l : List Char) : List Char :=
  replRuns ' ' (jsTrim l)

/-- Character set named by claim C2: ASCII letters, digits, dollar,
space. -/
def allowedC2 (c : Char) : Bool :=
  c.isAlpha || c.isDigit || c = '$' || c = ' '

/-- Two adjacent plus characters somewhere in the list. -/
def hasAdjPlus : List Char → Bool
  | a :: b :: t => (a = '+' && b = '+') || hasAdjPlus (b :: t)
  | _ => false

/-- Decision `!Number.isNaN(Number(tok))` for an already-trimmed token:
`Number` of the empty string is `0` (not NaN), and the device's telemetry
fields are plain optionally-signed decimal literals; other exotic `Number`
syntax (hex, exponent, `Infinity`) never occurs in `$A5` replies. -/
def isJsNumericToken (l : List Char) : Bool :=
  match l with
  | [] => true
  | c :: rest =>
    let body := if c = '+' || c = '-' then rest else l
    match body with
    | [] => false
    | _ =>
      body.all (fun d => d.isDigit || d = '.') &&
      body.countP (fun d => d = '.') ≤ 1 &&
      body.any (fun d => d.isDigit)

/-- Decoded `$A5` reply, from src/config.js `parseStatusResponse`.  The
best-effort telemetry readings are kept as the raw comma field that JS
would convert with `Number(...)`; no claim depends on the converted
numeric value. -/
structure StatusSnapshot where
  portCount : Nat
  outlets : List Bool
  bits : List Char
  currentAmps : Option (List Char)
  tempC : Option (List Char)
  raw : List Char
deriving DecidableEq, Repr

/-- The remainder after the `$A0` prefix handling in `parseStatusResponse`:
if the trimmed text starts with `$A0`, everything up to and including the
first comma is dropped (the whole string when there is no comma). -/
def statusRemainder (text : List Char) : List Char :=
  if startsWithChars text ("$A0".toList) then
    match indexOfChar ',' text with
    | some idx => text.drop (idx + 1)
    | none => []
  else text

/-- The outlet bit string the code extracts: first comma field of the
remainder, trimmed, restricted to the characters `0` and `1`. -/
def bitsOfReply (raw : List Char) : List Char :=
  let text := jsTrim raw
  let firstToken := jsTrim ((splitOnChar ',' (statusRemainder text)).headD [])
  firstToken.filter (fun c => c = '0' || c = '1')

/-- Telemetry extraction of `parseStatusResponse`: with at least three
comma fields, the last field is the temperature candidate and the one
before it the current candidate; a field is kept when `Number(field)` is
not NaN. -/
def statusTelemetry (remainder : List Char) : Option (List Char) × Option (List Char) :=
  let parts := (splitOnChar ',' remainder).map jsTrim
  if parts.length ≥ 3 then
    let tempTok := parts.getD (parts.length - 1) []
    let curTok := parts.getD (parts.length - 2) []
    ((if isJsNumericToken curTok then some curTok else none),
     (if isJsNumericToken tempTok then some tempTok else none))
  else (none, none)

/-- The snapshot `parseStatusResponse` builds on success: the loop
`for (outlet = 1; outlet <= portCount; outlet++) bits[portCount - outlet]`
reads the bit string from its right end, so `outlets[k]` is
`bits[portCount - 1 - k]`. -/
def mkStatusSnapshot (text bits : List Char) : StatusSnapshot :=
  ⟨bits.length,
   (List.range bits.length).map (fun k => bits.getD (bits.length - 1 - k) ' ' == '1'),
   bits,
   (statusTelemetry (statusRemainder text)).1,
   (statusTelemetry (statusRemainder text)).2,
   text⟩

/-- `parseStatusResponse` from src/config.js.  Throwing is modelled as
`Except.error` carrying the thrown message. -/
def parseStatusResponse (raw : List Char) : Except (List Char) StatusSnapshot :=
  let bits := bitsOfReply raw
  if bits.length = 2 || bits.length = 5 then
    Except.ok (mkStatusSnapshot (jsTrim raw) bits)
  else
    Except.error ("Unable to parse outlet bits from status: ".toList ++ jsTrim raw)

/-- The bit string computed the way claim C1 words it: strip a literal
leading `$A0,` prefix when present, take the first comma field of what is
left, and keep only `0` and `1` characters. -/
def claimC1Bits (raw : List Char) : List Char :=
  let text := jsTrim raw
  let stripped :=
    if startsWithChars text ("$A0,".toList) then text.drop 4 else text
  ((splitOnChar ',' stripped).headD []).filter (fun c => c = '0' || c = '1')

/-- `assertActionOk` from src/config.js: `$A0` prefix is success, `$AF` and
anything else throw (modelled as `Except.error` with the message). -/
def assertActionOk (body : List Char) (context : List Char) : Except (List Char) Unit :=
  if startsWithChars body ("$A0".toList) then Except.ok ()
  else if startsWithChars body ("$AF".toList) then
    Except.error ("Device returned $AF for ".toList ++ context)
  else
    Except.error ("Unexpected response for ".toList ++ context ++ ": ".toList ++ body)

/- ----------------------------------------------------------------- -/
/- JS numbers, as needed for the timeout / pacing configuration       -/
/- ----------------------------------------------------------------- -/

/-- A JavaScript number: NaN, the two infinities, or a finite value
(ideal rationals; double rounding is irrelevant to the comparisons the
module performs). -/
inductive JsNum
  | nan
  | posInf
  | negInf
  | num (q : ℚ)
deriving DecidableEq, Repr

/-- Embedding of `Number.isFinite`. -/
def JsNum.isFiniteNum : JsNum → Bool
  | .num _ => true
  | _ => false

/-- Embedding of the JS comparison `x >= q` for a rational literal `q`:
false on NaN, the infinities compare as usual. -/
def JsNum.jsGe : JsNum → ℚ → Bool
  | .nan, _ => false
  | .posInf, _ => true
  | .negInf, _ => false
  | .num x, q => q ≤ x

/-- Effective request timeout, from src/http.js lines 117-118:
`timeoutMsRaw = timeoutMs ?? Number(cfg.controlTimeoutMs) ?? 20000` and
`requestTimeoutMs = Number.isFinite(raw) && raw >= 250 ? raw : 20000`.
`override` is the caller-supplied `timeoutMs` (`none` = not supplied) and
`cfgControlTimeoutMs` stands for `Number(cfg.controlTimeoutMs)`; the
trailing `?? 20000` can never fire because `Number(..)` is never
nullish. -/
def effectiveTimeoutMs (override : Option JsNum) (cfgControlTimeoutMs : JsNum) : JsNum :=
  let raw := override.getD cfgControlTimeoutMs
  if raw.isFiniteNum && raw.jsGe 250 then raw else .num 20000

/-- Clamp-to-a-floor-of-250ms on finite values, as worded by claim C4
(the claim is silent on NaN and infinities, which are left unchanged). -/
def clampFloor250 : JsNum → JsNum
  | .num q => .num (max q 250)
  | other => other

/-- The effective timeout as claim C4 words it: the override when it is at
least 250ms, otherwise the configured default clamped to a 250ms floor. -/
def claimC4Timeout (override : Option JsNum) (cfgControlTimeoutMs : JsNum) : JsNum :=
  match override with
  | some o => if o.jsGe 250 then o else clampFloor250 cfgControlTimeoutMs
  | none => clampFloor250 cfgControlTimeoutMs

/- ----------------------------------------------------------------- -/
/- Transport: the serialized request queue of src/http.js             -/
/- ----------------------------------------------------------------- -/

/-- `_isControlCmd` from src/http.js: `$A3`, `$A4` and `$A7` keyword
prefixes. -/
def isControlCmd (cmdStr : List Char) : Bool :=
  startsWithChars cmdStr ("$A3".toList) ||
  startsWithChars cmdStr ("$A4".toList) ||
  startsWithChars cmdStr ("$A7".toList)

/-- Observable events of the transport queue, in the order the
single-threaded event loop produces them.  `pendInc`/`pendDec` are the
`this._pending++` / `this._pending--` bracketing each `run()`;
`netStart`/`netEnd` delimit the network exchange; `paceWait` is the
control-command pacing sleep; `reply i ok` is the settlement of the
caller-visible promise of submission `i`. -/
inductive Ev
  | pendInc (i : Nat)
  | netStart (i : Nat)
  | netEnd (i : Nat) (ok : Bool)
  | pendDec (i : Nat)
  | paceWait (i : Nat)
  | reply (i : Nat) (ok : Bool)
deriving DecidableEq, Repr

/-- Events produced by the queued handler of one submission
(src/http.js lines 176-188): both settlement handlers of the previous
queue promise execute `run()` and then `_applyControlPace`.  When `run()`
throws, the `await` rethrows, so the pacing sleep is skipped and the
caller promise rejects; when it succeeds, `_applyControlPace` sleeps only
for control commands with a positive configured pace. -/
def handlerEvents (ctrl : Bool) (paceMs : ℚ) (i : Nat) (ok : Bool) : List Ev :=
  [.pendInc i, .netStart i, .netEnd i ok, .pendDec i] ++
    (if ok then
      (if ctrl && decide (0 < paceMs) then [.paceWait i] else []) ++ [.reply i true]
     else [.reply i false])

/-- Event trace of the whole queue starting at submission index `a`:
handler `a` is chained (via `.then(run, run)`) behind handler `a-1`, so
the handlers execute back to back in submission order regardless of each
outcome.  `outs i` is the oracle outcome of the `i`-th network exchange
and `paceMs` stands for `Number(cfg.controlPaceMs) || 0`. -/
def transportTraceAux (paceMs : ℚ) (outs : Nat → Bool) : Nat → List (List Char) → List Ev
  | _, [] => []
  | a, cmd :: rest =>
    handlerEvents (isControlCmd (jsTrim cmd)) paceMs a (outs a) ++
      transportTraceAux paceMs outs (a + 1) rest

/-- Full event trace for a list of submitted commands (`get` trims the
command string before classifying it; the model assumes a configured
host, since `get` otherwise throws synchronously before queueing). -/
def transportTrace (paceMs : ℚ) (outs : Nat → Bool) (cmds : List (List Char)) : List Ev :=
  transportTraceAux paceMs outs 0 cmds

/-- Submission index an event belongs to. -/
def evIdx : Ev → Nat
  | .pendInc i => i
  | .netStart i => i
  | .netEnd i _ => i
  | .pendDec i => i
  | .paceWait i => i
  | .reply i _ => i

/-- Contribution of an event to the number of in-flight network
exchanges. -/
def evNetDelta : Ev → Int
  | .netStart _ => 1
  | .netEnd _ _ => -1
  | _ => 0

/-- Number of network exchanges in flight after a list of events. -/
def netInFlight (l : List Ev) : Int :=
  (l.map evNetDelta).sum

/-- Contribution of an event to the `_pending` counter. -/
def evPendDelta : Ev → Int
  | .pendInc _ => 1
  | .pendDec _ => -1
  | _ => 0

/-- Value of `this._pending` after a list of events. -/
def pendingValue (l : List Ev) : Int :=
  (l.map evPendDelta).sum

/-- Whether an event is a caller-visible reply (settlement of a
submission's promise). -/
def isReplyEv : Ev → Bool
  | .reply _ _ => true
  | _ => false

/-- Number of submissions already completed (replied) in an event list. -/
def repliesDelivered (l : List Ev) : Nat :=
  l.countP isReplyEv

/-- Event `a` occurs strictly before event `b` in the trace. -/
def before (tr : List Ev) (a b : Ev) : Prop :=
  ∃ k₁ k₂, k₁ < k₂ ∧ tr.get? k₁ = some a ∧ tr.get? k₂ = some b

/- ----------------------------------------------------------------- -/
/- Reboot sequencer (src/actions.js reboot_outlet + src/main.js locks) -/
/- ----------------------------------------------------------------- -/

/-- The string `$A3 <outlet> 0` submitted for the OFF leg. -/
def offCommand (outlet : Nat) : List Char :=
  "$A3 ".toList ++ (Nat.repr outlet).toList ++ " 0".toList

/-- The string `$A3 <outlet> 1` submitted for the ON leg. -/
def onCommand (outlet : Nat) : List Char :=
  "$A3 ".toList ++ (Nat.repr outlet).toList ++ " 1".toList

/-- Caller-visible outcome of the `reboot_outlet` action callback.
`alreadyInProgress` is the `_lockReboot` false branch (warn and return);
`offFailed` is the rethrown OFF-leg error; `offOk` means the callback
returned with the detached ON-leg continuation scheduled. -/
inductive RebootStart
  | invalidOutlet
  | alreadyInProgress
  | offFailed (err : List Char)
  | offOk
deriving DecidableEq, Repr

/-- Instance state touched by the reboot callback: the per-outlet lock set
`_rebootLocks` (src/main.js keeps `_rebootingOutlets` in lockstep with it,
so one list models both), the global `_rebootInProgress` counter, and the
cached `outletState`. -/
structure RebootState where
  locks : List Nat
  rebootInProgress : Int
  outletState : List Bool
deriving DecidableEq, Repr

/-- Everything the reboot callback did: its result, the state it leaves
behind, the commands it submitted to the transport, and the detached
continuation it scheduled via `setTimeout` (outlet and delay), if any. -/
structure RebootCallEffects where
  result : RebootStart
  state : RebootState
  submitted : List (List Char)
  scheduled : Option (Nat × ℚ)
deriving DecidableEq, Repr

/-- Context string passed to `assertActionOk` for the OFF leg. -/
def rebootOffContext : List Char := "Reboot OFF".toList

/-- The `reboot_outlet` callback from src/actions.js lines 76-135, up to
the point where it returns to the caller.  `offLeg` is the outcome of the
awaited `http.get` for the OFF command (`Except.error` = transport
failure).  `assertValidOutlet` (src/config.js) throws unless the outlet is
an integer in `1..portCount`; outlets are modelled as `Nat`.  The OFF-leg
`catch` decrements `_rebootInProgress`, releases the lock and rethrows;
only the success path schedules the detached ON-leg continuation. -/
def rebootCallback (portCount : Nat) (st : RebootState) (outlet : Nat)
    (rawDelay : JsNum) (offLeg : Except (List Char) (List Char)) : RebootCallEffects :=
  let delayMs : ℚ :=
    match rawDelay with
    | .num q => if 0 ≤ q then q else 5000
    | _ => 5000
  if ¬ (1 ≤ outlet ∧ outlet ≤ portCount) then
    ⟨.invalidOutlet, st, [], none⟩
  else if outlet ∈ st.locks then
    ⟨.alreadyInProgress, st, [], none⟩
  else
    let locked : RebootState :=
      { st with locks := outlet :: st.locks,
                rebootInProgress := st.rebootInProgress + 1 }
    let fail : List Char → RebootCallEffects := fun e =>
      ⟨.offFailed e,
       { locked with locks := locked.locks.erase outlet,
                     rebootInProgress := locked.rebootInProgress - 1 },
       [offCommand outlet], none⟩
    match offLeg with
    | .error e => fail e
    | .ok body =>
      match assertActionOk body rebootOffContext with
      | .error e => fail e
      | .ok _ =>
        ⟨.offOk,
         { locked with outletState := locked.outletState.set (outlet - 1) false },
         [offCommand outlet], some (outlet, delayMs)⟩

/-- State relevant to the global reboot gate of claim C10: the lock set,
the `_rebootInProgress` counter, and the outlets whose accepted reboot
still owes its single paired decrement (executed either by the OFF-leg
`catch` in src/actions.js lines 104-109 or by the `finally` of the
detached continuation in lines 129-133). -/
structure RebootSys where
  locks : List Nat
  counter : Int
  owed : List Nat
deriving DecidableEq, Repr

/-- Atomic steps of the reboot lifecycle, as the synchronous blocks of
src/actions.js execute them: `accept` is `_lockReboot` success followed
immediately by `_rebootInProgress++` (lines 83-88, no suspension point in
between); `reject` is the `_lockReboot` false branch; `settle` is the
paired `_rebootInProgress--; _unlockReboot(outlet)` block, run exactly
once per accepted reboot. -/
inductive RebootStep : RebootSys → RebootSys → Prop
  | accept (s : RebootSys) (o : Nat) (h : o ∉ s.locks) :
      RebootStep s ⟨o :: s.locks, s.counter + 1, s.owed ++ [o]⟩
  | reject (s : RebootSys) (o : Nat) (h : o ∈ s.locks) :
      RebootStep s s
  | settle (s : RebootSys) (o : Nat) (l₁ l₂ : List Nat)
      (h : s.owed = l₁ ++ o :: l₂) :
      RebootStep s ⟨s.locks.erase o, s.counter - 1, l₁ ++ l₂⟩

/-- States reachable from the freshly constructed instance
(`_rebootLocks = new Set()`, `_rebootInProgress = 0`). -/
inductive RebootReachable : RebootSys → Prop
  | init : RebootReachable ⟨[], 0, []⟩
  | step {s s' : RebootSys} :
      RebootReachable s → RebootStep s s' → RebootReachable s'

/- ----------------------------------------------------------------- -/
/- Poll scheduler / device-state cache (src/main.js refreshStatus)    -/
/- ----------------------------------------------------------------- -/

/-- Companion status values the module sets. -/
inductive InstStatus
  | statusOk
  | connectionFailure
  | badConfig
deriving DecidableEq, Repr

/-- The cached device state plus the polling bookkeeping flags of
src/main.js. -/
structure DeviceCache where
  portCount : Nat
  outletState : List Bool
  currentAmps : Option (List Char)
  tempC : Option (List Char)
  lastError : List Char
  connStatus : InstStatus
  isPolling : Bool
  hasLoggedPollSuccess : Bool
deriving DecidableEq, Repr

/-- `refreshStatus` from src/main.js lines 269-322.  `host` is the
configured host string (`_hasValidConfig` requires it nonempty after
trimming); `pollOutcome` is the settlement of `this._httpGet('$A5')`.
Presentation side effects (variable updates, feedback checks, definition
rebuilds on a port-count change) are outside the cache and not modelled.
The `catch` block records the error, drops the logged-success latch and
marks `ConnectionFailure`; the `finally` clears `_isPolling`. -/
def refreshStatus (host : List Char) (c : DeviceCache)
    (pollOutcome : Except (List Char) (List Char)) : DeviceCache :=
  if jsTrim host = [] then
    { c with lastError := "Device host/IP is required in the configuration".toList,
             connStatus := .badConfig, isPolling := false }
  else if c.isPolling then c
  else
    match pollOutcome with
    | .error msg =>
      { c with lastError := msg, hasLoggedPollSuccess := false,
               connStatus := .connectionFailure, isPolling := false }
    | .ok body =>
      match parseStatusResponse body with
      | .error msg =>
        { c with lastError := msg, hasLoggedPollSuccess := false,
                 connStatus := .connectionFailure, isPolling := false }
      | .ok snap =>
        { c with portCount := snap.portCount, outletState := snap.outlets,
                 currentAmps := snap.currentAmps, tempC := snap.tempC,
                 lastError := [], connStatus := .statusOk,
                 hasLoggedPollSuccess := true, isPolling := false }

/- ----------------------------------------------------------------- -/
/- Helper lemmas                                                      -/
/- ----------------------------------------------------------------- -/

/-- Reading the `k`-th entry of a table built over `List.range`. -/
lemma getD_map_range {α : Type} (f : Nat → α) (n k : Nat) (d : α) (h : k < n) :
    ((List.range n).map f).getD k d = f k := by
  rw [List.getD_eq_getD_get?, List.get?_map, List.get?_range h]
  rfl

/-- Field-level description of the snapshot built on a successful parse:
the outlet list reverses the bit string, so outlet 1 (index 0) is the
right-most bit character. -/
lemma mkStatusSnapshot_fields (text bits : List Char) (hpos : 0 < bits.length) :
    (mkStatusSnapshot text bits).portCount = bits.length ∧
    (mkStatusSnapshot text bits).bits = bits ∧
    (mkStatusSnapshot text bits).outlets.length = bits.length ∧
    ((mkStatusSnapshot text bits).outlets.getD 0 false = true ↔
      bits.getLast? = some '1') ∧
    (∀ k, k < bits.length →
      ((mkStatusSnapshot text bits).outlets.getD k false = true ↔
        bits.getD (bits.length - 1 - k) ' ' = '1')) := by
  have hlt : bits.length - 1 < bits.length := by omega
  have hsome : bits.get? (bits.length - 1) = some (bits.get ⟨bits.length - 1, hlt⟩) :=
    List.get?_eq_get hlt
  have hgetD : bits.getD (bits.length - 1) ' ' = bits.get ⟨bits.length - 1, hlt⟩ := by
    rw [List.getD_eq_getD_get?, hsome]
    rfl
  have hlast : bits.getLast? = some (bits.get ⟨bits.length - 1, hlt⟩) := by
    rw [List.getLast?_eq_get?, hsome]
  refine ⟨rfl, rfl, by simp [mkStatusSnapshot], ?_, ?_⟩
  · have hout : (mkStatusSnapshot text bits).outlets.getD 0 false =
        (bits.getD (bits.length - 1 - 0) ' ' == '1') :=
      getD_map_range _ _ _ _ hpos
    rw [hout, hlast]
    simp only [Nat.sub_zero, hgetD]
    constructor
    · intro h
      exact congrArg some (beq_iff_eq.mp h)
    · intro h
      exact beq_iff_eq.mpr (Option.some.inj h)
  · intro k hk
    have hout : (mkStatusSnapshot text bits).outlets.getD k false =
        (bits.getD (bits.length - 1 - k) ' ' == '1') :=
      getD_map_range _ _ _ _ hk
    rw [hout]
    exact ⟨fun h => beq_iff_eq.mp h, fun h => beq_iff_eq.mpr h⟩

/- ----------------------------------------------------------------- -/
/- Claim C1 (corrected)                                               -/
/- ----------------------------------------------------------------- -/

/-- Claim C1 as stated is false: the code does not strip a literal
`$A0,` prefix — whenever the reply starts with `$A0` it drops everything
up to and including the first comma, and drops the whole string when no
comma exists.  On the reply `$A00110` the claim's reading extracts the
five bits `00110` and predicts success, but `parseStatusResponse`
throws. -/
theorem parseStatus_claimC1_counterexample :
    ¬ (((parseStatusResponse ("$A00110".toList)).isOk = true) ↔
        ((claimC1Bits ("$A00110".toList)).length = 2 ∨
         (claimC1Bits ("$A00110".toList)).length = 5)) := by
  decide

/-- Claim C1, amended to the code's prefix handling: with the bit string
obtained by dropping through the first comma whenever the reply starts
with `$A0` (the whole string if no comma), then taking the first comma
field and keeping only `0`/`1` characters, `parseStatusResponse` succeeds
exactly when that bit string has length 2 or 5; any other length is a
parse error with no snapshot.  On success the outlet count equals that
length and the right-most bit character is outlet 1; in particular
`parseStatus("10100")` gives outlet count 5 with outlet 1 = false,
outlet 3 = true, outlet 5 = true. -/
theorem parseStatus_success_characterization :
    (∀ raw : List Char,
      (parseStatusResponse raw).isOk = true ↔
        ((bitsOfReply raw).length = 2 ∨ (bitsOfReply raw).length = 5)) ∧
    (∀ (raw : List Char) (snap : StatusSnapshot),
      parseStatusResponse raw = Except.ok snap →
        snap.portCount = (bitsOfReply raw).length ∧
        snap.bits = bitsOfReply raw ∧
        snap.outlets.length = snap.portCount ∧
        (snap.outlets.getD 0 false = true ↔ snap.bits.getLast? = some '1') ∧
        (∀ k, k < snap.portCount →
          (snap.outlets.getD k false = true ↔
           snap.bits.getD (snap.portCount - 1 - k) ' ' = '1'))) ∧
    (parseStatusResponse ("10100".toList) =
      Except.ok (mkStatusSnapshot ("10100".toList) ("10100".toList)) ∧
     (mkStatusSnapshot ("10100".toList) ("10100".toList)).portCount = 5 ∧
     (mkStatusSnapshot ("10100".toList) ("10100".toList)).outlets =
       [false, false, true, false, true]) := by
  refine ⟨?_, ?_, by rfl, by decide, by decide⟩
  · intro raw
    unfold parseStatusResponse
    by_cases h2 : (bitsOfReply raw).length = 2
    · simp [h2, Except.isOk, Except.toBool]
    · by_cases h5 : (bitsOfReply raw).length = 5
      · simp [h2, h5, Except.isOk, Except.toBool]
      · simp [h2, h5, Except.isOk, Except.toBool]
  · intro raw snap hok
    have h : (bitsOfReply raw).length = 2 ∨ (bitsOfReply raw).length = 5 := by
      by_contra hcon
      have h2 : ¬ (bitsOfReply raw).length = 2 := fun hh => hcon (Or.inl hh)
      have h5 : ¬ (bitsOfReply raw).length = 5 := fun hh => hcon (Or.inr hh)
      simp [parseStatusResponse, h2, h5] at hok
    have hb : ((bitsOfReply raw).length = 2 || (bitsOfReply raw).length = 5) = true := by
      rcases h with h | h <;> simp [h]
    have hsnap : snap = mkStatusSnapshot (jsTrim raw) (bitsOfReply raw) := by
      simp [parseStatusResponse, hb] at hok
      exact hok.symm
    subst hsnap
    have hlenpos : 0 < (bitsOfReply raw).length := by rcases h with h | h <;> omega
    obtain ⟨f1, f2, f3, f4, f5⟩ := mkStatusSnapshot_fields (jsTrim raw) (bitsOfReply raw) hlenpos
    exact ⟨f1, f2, by rw [f3, f1], f4, fun k hk => f5 k (by rwa [f1] at hk)⟩

/-- Witness for the amended C1 theorem at concrete replies. -/
theorem parseStatus_success_characterization_witness :
    (parseStatusResponse ("$A0,01".toList)).isOk = true ∧
    (mkStatusSnapshot ("10100".toList) ("10100".toList)).portCount =
      (bitsOfReply ("10100".toList)).length := by
  constructor
  · exact (parseStatus_success_characterization.1 _).mpr (by decide)
  · exact (parseStatus_success_characterization.2.1 _ _ (by rfl)).1

/- ----------------------------------------------------------------- -/
/- Claim C4 (corrected)                                               -/
/- ----------------------------------------------------------------- -/

/-- Claim C4 as stated is false: when no override is supplied and the
configured default is below the 250ms floor (here 100ms), the claim
predicts a clamped 250ms, but the code falls back to the hardcoded
20000ms (`: 20000` in src/http.js line 118); likewise a sub-250ms
override falls back to 20000ms instead of the configured default. -/
theorem effectiveTimeout_claimC4_counterexample :
    effectiveTimeoutMs none (JsNum.num 100) ≠ claimC4Timeout none (JsNum.num 100) := by
  decide

/-- Claim C4, amended to the code: the effective timeout is the
caller-supplied override when that override is finite and at least 250ms;
in every other case with an override supplied it is the hardcoded
20000ms; with no override it is the configured default when that is
finite and at least 250ms, and the hardcoded 20000ms otherwise. -/
theorem effectiveTimeout_characterization :
    (∀ (q : ℚ) (cfg : JsNum), 250 ≤ q →
        effectiveTimeoutMs (some (JsNum.num q)) cfg = JsNum.num q) ∧
    (∀ (o cfg : JsNum), o.isFiniteNum = false ∨ o.jsGe 250 = false →
        effectiveTimeoutMs (some o) cfg = JsNum.num 20000) ∧
    (∀ cfg : JsNum, cfg.isFiniteNum = true → cfg.jsGe 250 = true →
        effectiveTimeoutMs none cfg = cfg) ∧
    (∀ cfg : JsNum, cfg.isFiniteNum = false ∨ cfg.jsGe 250 = false →
        effectiveTimeoutMs none cfg = JsNum.num 20000) := by
  refine ⟨?_, ?_, ?_, ?_⟩
  · intro q cfg hq
    simp [effectiveTimeoutMs, JsNum.isFiniteNum, JsNum.jsGe, hq]
  · intro o cfg h
    rcases h with h | h <;> simp [effectiveTimeoutMs, h]
  · intro cfg h1 h2
    simp [effectiveTimeoutMs, h1, h2]
  · intro cfg h
    rcases h with h | h <;> simp [effectiveTimeoutMs, h]

/-- Witness for the amended C4 theorem at concrete timeouts. -/
theorem effectiveTimeout_characterization_witness :
    effectiveTimeoutMs (some (JsNum.num 5000)) JsNum.nan = JsNum.num 5000 ∧
    effectiveTimeoutMs (some (JsNum.num 100)) (JsNum.num 5000) = JsNum.num 20000 ∧
    effectiveTimeoutMs none (JsNum.num 3000) = JsNum.num 3000 ∧
    effectiveTimeoutMs none JsNum.nan = JsNum.num 20000 := by
  refine ⟨?_, ?_, ?_, ?_⟩
  · exact effectiveTimeout_characterization.1 5000 _ (by norm_num)
  · exact effectiveTimeout_characterization.2.1 _ _ (Or.inr (by decide))
  · exact effectiveTimeout_characterization.2.2.1 _ (by decide) (by decide)
  · exact effectiveTimeout_characterization.2.2.2 _ (Or.inl (by decide))

/- ----------------------------------------------------------------- -/
/- Claim C9 (confirmed)                                               -/
/- ----------------------------------------------------------------- -/

/-- Claim C9: when a status poll fails — the HTTP request rejects, or the
reply does not parse — the cache records the error message and marks
connectivity as failed, and every field of the previously cached snapshot
(outlet count, per-outlet states, current draw, temperature) is left
unchanged. -/
theorem refreshStatus_failure_preserves_snapshot :
    ∀ (host : List Char) (c : DeviceCache),
      jsTrim host ≠ [] → c.isPolling = false →
      (∀ msg : List Char,
        (refreshStatus host c (Except.error msg)).portCount = c.portCount ∧
        (refreshStatus host c (Except.error msg)).outletState = c.outletState ∧
        (refreshStatus host c (Except.error msg)).currentAmps = c.currentAmps ∧
        (refreshStatus host c (Except.error msg)).tempC = c.tempC ∧
        (refreshStatus host c (Except.error msg)).lastError = msg ∧
        (refreshStatus host c (Except.error msg)).connStatus = InstStatus.connectionFailure) ∧
      (∀ body msg : List Char, parseStatusResponse body = Except.error msg →
        (refreshStatus host c (Except.ok body)).portCount = c.portCount ∧
        (refreshStatus host c (Except.ok body)).outletState = c.outletState ∧
        (refreshStatus host c (Except.ok body)).currentAmps = c.currentAmps ∧
        (refreshStatus host c (Except.ok body)).tempC = c.tempC ∧
        (refreshStatus host c (Except.ok body)).lastError = msg ∧
        (refreshStatus host c (Except.ok body)).connStatus = InstStatus.connectionFailure) := by
  intro host c hhost hpoll
  constructor
  · intro msg
    simp [refreshStatus, hhost, hpoll]
  · intro body msg hparse
    simp [refreshStatus, hhost, hpoll, hparse]

/-- Witness for C9 at a concrete cache, failing transport poll, and the
spec's malformed reply `000`. -/
theorem refreshStatus_failure_preserves_snapshot_witness :
    (refreshStatus ("10.0.0.9".toList)
        ⟨5, [true, false, true, false, true], none, none, [], InstStatus.statusOk, false, true⟩
        (Except.error ("boom".toList))).outletState = [true, false, true, false, true] ∧
    (refreshStatus ("10.0.0.9".toList)
        ⟨5, [true, false, true, false, true], none, none, [], InstStatus.statusOk, false, true⟩
        (Except.ok ("000".toList))).portCount = 5 := by
  constructor
  · exact ((refreshStatus_failure_preserves_snapshot ("10.0.0.9".toList) _
      (by decide) (by rfl)).1 ("boom".toList)).2.1
  · exact ((refreshStatus_failure_preserves_snapshot ("10.0.0.9".toList) _
      (by decide) (by rfl)).2 ("000".toList) _ (by rfl)).1

/- ----------------------------------------------------------------- -/
/- Claim C7 (confirmed)                                               -/
/- ----------------------------------------------------------------- -/

/-- Claim C7: at most one live reboot ticket per outlet.  A reboot request
for an outlet whose ticket is held is rejected immediately as
already-in-progress, with no state change, no queued continuation and no
command sent; for an unlocked outlet the callback acquires the ticket
(and keeps it held on the successful OFF path), never touches any other
outlet's ticket, and preserves distinctness of the lock set. -/
theorem rebootTicket_exclusive :
    ∀ (pc : Nat) (st : RebootState) (o : Nat) (d : JsNum)
      (off : Except (List Char) (List Char)),
      1 ≤ o → o ≤ pc →
      (o ∈ st.locks →
        (rebootCallback pc st o d off).result = RebootStart.alreadyInProgress ∧
        (rebootCallback pc st o d off).state = st ∧
        (rebootCallback pc st o d off).submitted = [] ∧
        (rebootCallback pc st o d off).scheduled = none) ∧
      (o ∉ st.locks →
        (rebootCallback pc st o d off).result ≠ RebootStart.alreadyInProgress ∧
        (rebootCallback pc st o d off).result ≠ RebootStart.invalidOutlet ∧
        ((rebootCallback pc st o d off).result = RebootStart.offOk →
          o ∈ (rebootCallback pc st o d off).state.locks ∧
          (rebootCallback pc st o d off).scheduled.isSome = true) ∧
        (∀ o₂, o₂ ≠ o →
          (o₂ ∈ (rebootCallback pc st o d off).state.locks ↔ o₂ ∈ st.locks)) ∧
        (st.locks.Nodup → (rebootCallback pc st o d off).state.locks.Nodup)) := by
  intro pc st o d off h1 h2
  have hvalid : ¬ ¬ (1 ≤ o ∧ o ≤ pc) := by
    intro hcon
    exact hcon ⟨h1, h2⟩
  constructor
  · intro hmem
    simp [rebootCallback, hvalid, hmem]
  · intro hmem
    rcases off with e | body
    · refine ⟨by simp [rebootCallback, hvalid, hmem], by simp [rebootCallback, hvalid, hmem],
        by simp [rebootCallback, hvalid, hmem], ?_, ?_⟩
      · intro o₂ ho₂
        simp [rebootCallback, hvalid, hmem, List.erase_cons_head]
      · intro hnd
        simpa [rebootCallback, hvalid, hmem, List.erase_cons_head] using hnd
    · rcases hcheck : assertActionOk body rebootOffContext with e | u
      · refine ⟨by simp [rebootCallback, hvalid, hmem, hcheck],
          by simp [rebootCallback, hvalid, hmem, hcheck],
          by simp [rebootCallback, hvalid, hmem, hcheck], ?_, ?_⟩
        · intro o₂ ho₂
          simp [rebootCallback, hvalid, hmem, hcheck, List.erase_cons_head]
        · intro hnd
          simpa [rebootCallback, hvalid, hmem, hcheck, List.erase_cons_head] using hnd
      · refine ⟨by simp [rebootCallback, hvalid, hmem, hcheck],
          by simp [rebootCallback, hvalid, hmem, hcheck],
          by simp [rebootCallback, hvalid, hmem, hcheck], ?_, ?_⟩
        · intro o₂ ho₂
          simp [rebootCallback, hvalid, hmem, hcheck, ho₂]
        · intro hnd
          simp [rebootCallback, hvalid, hmem, hcheck]
          exact hnd

/-- Witness for C7: a held ticket on outlet 2 rejects a second reboot of
outlet 2, while outlet 3 proceeds and takes its own ticket. -/
theorem rebootTicket_exclusive_witness :
    (rebootCallback 5 ⟨[2], 1, [true, true, true, true, true]⟩ 2 (JsNum.num 5000)
        (Except.ok ("$A0".toList))).result = RebootStart.alreadyInProgress ∧
    (rebootCallback 5 ⟨[2], 1, [true, true, true, true, true]⟩ 3 (JsNum.num 5000)
        (Except.ok ("$A0".toList))).result ≠ RebootStart.alreadyInProgress := by
  constructor
  · exact ((rebootTicket_exclusive 5 _ 2 _ _ (by decide) (by decide)).1 (by decide)).1
  · exact ((rebootTicket_exclusive 5 _ 3 _ _ (by decide) (by decide)).2 (by decide)).1

/- ----------------------------------------------------------------- -/
/- Claim C8 (confirmed)                                               -/
/- ----------------------------------------------------------------- -/

/-- The OFF and ON wire commands for the same outlet differ (they end in
`0` and `1` respectively). -/
lemma offCommand_ne_onCommand (o : Nat) : offCommand o ≠ onCommand o := by
  intro h
  have e0 : (" 0").toList = [' ', '0'] := rfl
  have e1 : (" 1").toList = [' ', '1'] := rfl
  have h0 : (offCommand o).getLast? = some '0' := by
    rw [offCommand, e0, show ("$A3 ").toList ++ (Nat.repr o).toList ++ [' ', '0'] =
      (("$A3 ").toList ++ (Nat.repr o).toList ++ [' ']) ++ ['0'] by simp]
    exact List.getLast?_concat _
  have h1 : (onCommand o).getLast? = some '1' := by
    rw [onCommand, e1, show ("$A3 ").toList ++ (Nat.repr o).toList ++ [' ', '1'] =
      (("$A3 ").toList ++ (Nat.repr o).toList ++ [' ']) ++ ['1'] by simp]
    exact List.getLast?_concat _
  rw [h, h1] at h0
  exact absurd (Option.some.inj h0) (by decide)

/-- Claim C8: when the OFF leg of a reboot fails — whether the transport
request rejects or the reply fails `assertActionOk` — the callback
releases the outlet's ticket (lock set and global counter return to their
prior values), surfaces that error synchronously as its own result,
schedules no detached continuation, and never submits the power-ON
command. -/
theorem rebootOffFailure_sync_error_no_on :
    ∀ (pc : Nat) (st : RebootState) (o : Nat) (d : JsNum),
      1 ≤ o → o ≤ pc → o ∉ st.locks →
      (∀ e : List Char,
        (rebootCallback pc st o d (Except.error e)).result = RebootStart.offFailed e ∧
        (rebootCallback pc st o d (Except.error e)).state.locks = st.locks ∧
        (rebootCallback pc st o d (Except.error e)).state.rebootInProgress =
          st.rebootInProgress ∧
        (rebootCallback pc st o d (Except.error e)).scheduled = none ∧
        (rebootCallback pc st o d (Except.error e)).submitted = [offCommand o] ∧
        onCommand o ∉ (rebootCallback pc st o d (Except.error e)).submitted) ∧
      (∀ body err : List Char, assertActionOk body rebootOffContext = Except.error err →
        (rebootCallback pc st o d (Except.ok body)).result = RebootStart.offFailed err ∧
        (rebootCallback pc st o d (Except.ok body)).state.locks = st.locks ∧
        (rebootCallback pc st o d (Except.ok body)).state.rebootInProgress =
          st.rebootInProgress ∧
        (rebootCallback pc st o d (Except.ok body)).scheduled = none ∧
        (rebootCallback pc st o d (Except.ok body)).submitted = [offCommand o] ∧
        onCommand o ∉ (rebootCallback pc st o d (Except.ok body)).submitted) := by
  intro pc st o d h1 h2 hmem
  have hvalid : ¬ ¬ (1 ≤ o ∧ o ≤ pc) := by
    intro hcon
    exact hcon ⟨h1, h2⟩
  constructor
  · intro e
    refine ⟨by simp [rebootCallback, hvalid, hmem],
      by simp [rebootCallback, hvalid, hmem, List.erase_cons_head],
      by simp [rebootCallback, hvalid, hmem],
      by simp [rebootCallback, hvalid, hmem],
      by simp [rebootCallback, hvalid, hmem], ?_⟩
    simp [rebootCallback, hvalid, hmem]
    exact fun hh => offCommand_ne_onCommand o hh.symm
  · intro body err hcheck
    refine ⟨by simp [rebootCallback, hvalid, hmem, hcheck],
      by simp [rebootCallback, hvalid, hmem, hcheck, List.erase_cons_head],
      by simp [rebootCallback, hvalid, hmem, hcheck],
      by simp [rebootCallback, hvalid, hmem, hcheck],
      by simp [rebootCallback, hvalid, hmem, hcheck], ?_⟩
    simp [rebootCallback, hvalid, hmem, hcheck]
    exact fun hh => offCommand_ne_onCommand o hh.symm

/-- Witness for C8: a transport failure on the OFF leg for outlet 2, and
a `$AF` device reply on the OFF leg for outlet 4. -/
theorem rebootOffFailure_sync_error_no_on_witness :
    (rebootCallback 5 ⟨[], 0, [true, true, true, true, true]⟩ 2 (JsNum.num 5000)
        (Except.error ("Connection refused by 10.0.0.9".toList))).scheduled = none ∧
    (rebootCallback 5 ⟨[], 0, [true, true, true, true, true]⟩ 4 (JsNum.num 5000)
        (Except.ok ("$AF".toList))).state.locks = [] := by
  constructor
  · exact ((rebootOffFailure_sync_error_no_on 5 _ 2 _ (by decide) (by decide)
      (by decide)).1 _).2.2.2.1
  · exact ((rebootOffFailure_sync_error_no_on 5 _ 4 _ (by decide) (by decide)
      (by decide)).2 ("$AF".toList) _ (by rfl)).2.1

/- ----------------------------------------------------------------- -/
/- Claim C10 (confirmed)                                              -/
/- ----------------------------------------------------------------- -/

/-- Inductive invariant of the reboot lifecycle: the lock set is
duplicate-free, it is a permutation of the outlets still owing their
paired decrement, and the global counter equals its size. -/
def RebootInv (s : RebootSys) : Prop :=
  s.locks.Nodup ∧ s.locks.Perm s.owed ∧ s.counter = s.locks.length

lemma rebootInv_init : RebootInv ⟨[], 0, []⟩ := by
  refine ⟨List.nodup_nil, List.Perm.refl _, rfl⟩

lemma rebootInv_preserved {s s' : RebootSys} (h : RebootInv s)
    (hstep : RebootStep s s') : RebootInv s' := by
  obtain ⟨hnd, hperm, hcnt⟩ := h
  cases hstep with
  | accept o ho =>
    refine ⟨List.nodup_cons.mpr ⟨ho, hnd⟩, ?_, ?_⟩
    · exact (hperm.cons o).trans (List.perm_append_singleton o s.owed).symm
    · simp only [List.length_cons, hcnt]
      push_cast
      ring
  | reject o ho =>
    exact ⟨hnd, hperm, hcnt⟩
  | settle o l₁ l₂ howed =>
    have hoin : o ∈ s.owed := by
      rw [howed]
      simp
    have holocks : o ∈ s.locks := hperm.mem_iff.mpr hoin
    have hownd : s.owed.Nodup := hperm.nodup_iff.mp hnd
    have hnotl₁ : o ∉ l₁ := by
      rw [howed] at hownd
      have := List.disjoint_of_nodup_append hownd
      intro hin
      exact this hin (by simp)
    refine ⟨hnd.erase o, ?_, ?_⟩
    · have herase : s.owed.erase o = l₁ ++ l₂ := by
        rw [howed, List.erase_append_right _ hnotl₁, List.erase_cons_head]
      calc (s.locks.erase o).Perm (s.owed.erase o) := hperm.erase o
        _ = l₁ ++ l₂ := herase
    · have hlen : (s.locks.erase o).length = s.locks.length - 1 :=
        List.length_erase_of_mem holocks
      have hpos : 0 < s.locks.length := List.length_pos.mpr
        (fun hnil => by rw [hnil] at holocks; exact absurd holocks (List.not_mem_nil o))
      simp only [hlen, hcnt]
      omega

lemma rebootInv_reachable {s : RebootSys} (h : RebootReachable s) : RebootInv s := by
  induction h with
  | init => exact rebootInv_init
  | step _ hstep ih => exact rebootInv_preserved ih hstep

/-- Claim C10: in every reachable state of the reboot lifecycle, the
global `_rebootInProgress` counter equals the number of outlets currently
holding a reboot lock, and the poll tick's gate (`counter > 0`) fires
exactly when at least one outlet is mid-reboot. -/
theorem rebootCounter_matches_locks :
    ∀ s : RebootSys, RebootReachable s →
      s.counter = s.locks.length ∧ (0 < s.counter ↔ s.locks ≠ []) := by
  intro s hreach
  obtain ⟨hnd, hperm, hcnt⟩ := rebootInv_reachable hreach
  refine ⟨hcnt, ?_⟩
  rw [hcnt]
  constructor
  · intro hpos
    intro hnil
    rw [hnil] at hpos
    simp at hpos
  · intro hne
    have : 0 < s.locks.length := List.length_pos.mpr hne
    exact_mod_cast this

/-- Witness for C10 at the state reached by accepting a reboot of
outlet 2 from the initial state. -/
theorem rebootCounter_matches_locks_witness :
    (RebootSys.mk [2] 1 [2]).counter = (RebootSys.mk [2] 1 [2]).locks.length ∧
    (0 < (RebootSys.mk [2] 1 [2]).counter ↔ (RebootSys.mk [2] 1 [2]).locks ≠ []) := by
  have hreach : RebootReachable (RebootSys.mk [2] 1 [2]) := by
    have h0 : RebootReachable ⟨[], 0, []⟩ := RebootReachable.init
    have hstep : RebootStep ⟨[], 0, []⟩ ⟨[2], 1, [2]⟩ := by
      have := RebootStep.accept ⟨[], 0, []⟩ 2 (by simp)
      simpa using this
    exact RebootReachable.step h0 hstep
  exact rebootCounter_matches_locks _ hreach

/- ----------------------------------------------------------------- -/
/- Claim C2 (confirmed)                                               -/
/- ----------------------------------------------------------------- -/

/-- Every character the space-run rewriter emits is either the
replacement character or came from the input. -/
lemma replRunsAux_mem {rep : Char} :
    ∀ (s : Bool) (l : List Char) (c : Char),
      c ∈ replRunsAux rep s l → c = rep ∨ c ∈ l := by
  intro s l
  induction l generalizing s with
  | nil =>
    intro c hc
    simp [replRunsAux] at hc
  | cons a rest ih =>
    intro c hc
    by_cases ha : a = ' '
    · rw [replRunsAux, if_pos ha] at hc
      rcases List.mem_append.mp hc with h | h
      · cases s with
        | true => simp at h
        | false =>
          simp at h
          exact Or.inl h
      · rcases ih true c h with h' | h'
        · exact Or.inl h'
        · exact Or.inr (List.mem_cons_of_mem a h')
    · rw [replRunsAux, if_neg ha] at hc
      rcases List.mem_cons.mp hc with h | h
      · exact Or.inr (h ▸ List.mem_cons_self a rest)
      · rcases ih false c h with h' | h'
        · exact Or.inl h'
        · exact Or.inr (List.mem_cons_of_mem a h')

/-- The rewriter leaves no space character behind. -/
lemma replRunsAux_no_space {rep : Char} (hrep : rep ≠ ' ') :
    ∀ (s : Bool) (l : List Char), ' ' ∉ replRunsAux rep s l := by
  intro s l
  induction l generalizing s with
  | nil =>
    simp [replRunsAux]
  | cons a rest ih =>
    by_cases ha : a = ' '
    · rw [replRunsAux, if_pos ha]
      intro hc
      rcases List.mem_append.mp hc with h | h
      · cases s with
        | true => simp at h
        | false =>
          simp at h
          exact hrep h.symm
      · exact ih true h
    · rw [replRunsAux, if_neg ha]
      intro hc
      rcases List.mem_cons.mp hc with h | h
      · exact ha h.symm
      · exact ih false h

/-- Decoding `'+'` back to a space turns the `'+'`-rewriter into the
space-collapsing rewriter, provided the input itself contains no
`'+'`. -/
lemma replRunsAux_decode :
    ∀ (s : Bool) (l : List Char), '+' ∉ l →
      decodePlus (replRunsAux '+' s l) = replRunsAux ' ' s l := by
  intro s l
  induction l generalizing s with
  | nil =>
    intro _
    simp [replRunsAux, decodePlus]
  | cons a rest ih =>
    intro hplus
    have hrest : '+' ∉ rest := fun h => hplus (List.mem_cons_of_mem a h)
    have ha' : a ≠ '+' := fun h => hplus (h ▸ List.mem_cons_self a rest)
    have hih := ih true hrest
    by_cases ha : a = ' '
    · cases s with
      | true =>
        rw [replRunsAux, if_pos ha, replRunsAux, if_pos ha]
        simpa [decodePlus] using hih
      | false =>
        rw [replRunsAux, if_pos ha, replRunsAux, if_pos ha]
        simp only [decodePlus] at hih ⊢
        simp [hih]
    · rw [replRunsAux, if_neg ha, replRunsAux, if_neg ha]
      have hih2 := ih false hrest
      simp only [decodePlus] at hih2 ⊢
      simp [ha', hih2]

/-- The rewriter never produces two adjacent `'+'` characters when the
input has none, and in run-continuation state its first output character
is never `'+'`. -/
lemma replRunsAux_adj :
    ∀ (l : List Char), '+' ∉ l → ∀ (s : Bool),
      hasAdjPlus (replRunsAux '+' s l) = false ∧
      (s = true → (replRunsAux '+' s l).head? ≠ some '+') := by
  intro l
  induction l with
  | nil =>
    intro _ s
    constructor
    · cases s <;> rfl
    · intro _
      cases s <;> decide
  | cons a rest ih =>
    intro hplus s
    have hrest : '+' ∉ rest := fun h => hplus (List.mem_cons_of_mem a h)
    have ha' : a ≠ '+' := fun h => hplus (h ▸ List.mem_cons_self a rest)
    by_cases ha : a = ' '
    · cases s with
      | true =>
        rw [replRunsAux, if_pos ha]
        simpa using ih hrest true
      | false =>
        rw [replRunsAux, if_pos ha]
        rw [if_neg (by decide : ¬ ((false : Bool) = true))]
        simp only [List.singleton_append]
        obtain ⟨hadj, hhead⟩ := ih hrest true
        constructor
        · cases hw : replRunsAux '+' true rest with
          | nil => simp [hasAdjPlus]
          | cons b t =>
            have hb : b ≠ '+' := by
              intro hb
              exact hhead rfl (by rw [hw, hb]; rfl)
            rw [hasAdjPlus]
            rw [hw] at hadj
            simp [hb, hadj]
        · intro hfalse
          cases hfalse
    · rw [replRunsAux, if_neg ha]
      obtain ⟨hadj, _⟩ := ih hrest false
      constructor
      · cases hw : replRunsAux '+' false rest with
        | nil => simp [hasAdjPlus]
        | cons b t =>
          rw [hasAdjPlus]
          rw [hw] at hadj
          simp [ha', hadj]
      · intro _
        simp [ha']

/-- Characters surviving `jsTrim` all come from the input. -/
lemma jsTrim_subset (x : List Char) : ∀ c, c ∈ jsTrim x → c ∈ x := by
  intro c hc
  rw [jsTrim] at hc
  rw [List.mem_reverse] at hc
  have h1 := (List.dropWhile_sublist isJsWhitespace).subset hc
  rw [List.mem_reverse] at h1
  exact (List.dropWhile_sublist isJsWhitespace).subset h1

/-- Claim C2: `normalizeCmd` introduces no characters other than `'+'`
(in particular it never percent-encodes — no `'%'` appears unless the
input already had one), removes every space, replaces each maximal run of
spaces with exactly one `'+'` (no space survives, no adjacent `'+'` pair
is created, and decoding restores exactly one space per run), and for
inputs made of ASCII letters, digits, `'$'` and spaces, decoding the
encoded form yields the space-normalized input. -/
theorem normalizeCmd_encode_decode :
    (∀ (x : List Char) (c : Char), c ∈ normalizeCmd x → c = '+' ∨ c ∈ x) ∧
    (∀ x : List Char, '%' ∉ x → '%' ∉ normalizeCmd x) ∧
    (∀ x : List Char, ' ' ∉ normalizeCmd x) ∧
    (∀ x : List Char, '+' ∉ x → hasAdjPlus (normalizeCmd x) = false) ∧
    (∀ x : List Char, (∀ c ∈ x, allowedC2 c = true) →
      decodePlus (normalizeCmd x) = spaceNormalize x) := by
  have hmem : ∀ (x : List Char) (c : Char), c ∈ normalizeCmd x → c = '+' ∨ c ∈ x := by
    intro x c hc
    rcases replRunsAux_mem false (jsTrim x) c hc with h | h
    · exact Or.inl h
    · exact Or.inr (jsTrim_subset x c h)
  refine ⟨hmem, ?_, ?_, ?_, ?_⟩
  · intro x hx hmem'
    rcases hmem x '%' hmem' with h | h
    · exact absurd h (by decide)
    · exact hx h
  · intro x
    exact replRunsAux_no_space (by decide) false (jsTrim x)
  · intro x hx
    have : '+' ∉ jsTrim x := fun h => hx (jsTrim_subset x '+' h)
    exact (replRunsAux_adj (jsTrim x) this false).1
  · intro x hx
    have hx' : '+' ∉ x := by
      intro h
      exact absurd (hx '+' h) (by decide)
    have : '+' ∉ jsTrim x := fun h => hx' (jsTrim_subset x '+' h)
    exact replRunsAux_decode false (jsTrim x) this

/-- Witness for C2 at the concrete command `$A3  1 0` (double internal
space): encoding gives `$A3+1+0` and decoding restores `$A3 1 0`. -/
theorem normalizeCmd_encode_decode_witness :
    decodePlus (normalizeCmd ("$A3  1 0".toList)) = spaceNormalize ("$A3  1 0".toList) ∧
    hasAdjPlus (normalizeCmd ("$A3  1 0".toList)) = false ∧
    (' ' ∉ normalizeCmd ("$A3  1 0".toList)) ∧
    ('%' ∉ normalizeCmd ("$A3  1 0".toList)) := by
  refine ⟨?_, ?_, ?_, ?_⟩
  · exact normalizeCmd_encode_decode.2.2.2.2 _ (by decide)
  · exact normalizeCmd_encode_decode.2.2.2.1 _ (by decide)
  · exact normalizeCmd_encode_decode.2.2.1 _
  · exact normalizeCmd_encode_decode.2.1 _ (by decide)

/- ----------------------------------------------------------------- -/
/- Transport trace lemmas                                             -/
/- ----------------------------------------------------------------- -/

/-- Every event of a submission's handler block carries that submission's
index. -/
lemma evIdx_of_mem_handlerEvents {c : Bool} {p : ℚ} {i : Nat} {ok : Bool} {e : Ev}
    (h : e ∈ handlerEvents c p i ok) : evIdx e = i := by
  cases ok with
  | false =>
    simp [handlerEvents] at h
    rcases h with rfl | rfl | rfl | rfl | rfl <;> rfl
  | true =>
    by_cases hc : (c && decide (0 < p)) = true
    · simp [handlerEvents, hc] at h
      rcases h with rfl | rfl | rfl | rfl | rfl | rfl <;> rfl
    · simp [handlerEvents, hc] at h
      rcases h with rfl | rfl | rfl | rfl | rfl <;> rfl

/-- `netStart` membership in a handler block. -/
lemma mem_handlerEvents_netStart {c : Bool} {p : ℚ} {i j : Nat} {ok : Bool} :
    Ev.netStart j ∈ handlerEvents c p i ok ↔ j = i := by
  constructor
  · intro h
    have := evIdx_of_mem_handlerEvents h
    simpa [evIdx] using this
  · intro h
    subst h
    simp [handlerEvents]

/-- `reply` membership in a handler block. -/
lemma mem_handlerEvents_reply {c : Bool} {p : ℚ} {i j : Nat} {ok b : Bool} :
    Ev.reply j b ∈ handlerEvents c p i ok ↔ j = i ∧ b = ok := by
  cases ok with
  | false =>
    simp [handlerEvents]
    try tauto
  | true =>
    by_cases hc : (c && decide (0 < p)) = true <;> simp [handlerEvents, hc]

/-- `paceWait` membership in a handler block: present exactly for a
successful control command with positive configured pace. -/
lemma mem_handlerEvents_pace {c : Bool} {p : ℚ} {i j : Nat} {ok : Bool} :
    Ev.paceWait j ∈ handlerEvents c p i ok ↔
      j = i ∧ ok = true ∧ (c && decide (0 < p)) = true := by
  cases ok with
  | false => simp [handlerEvents]
  | true =>
    by_cases hc : (c && decide (0 < p)) = true <;> simp [handlerEvents, hc]

/-- `netStart` membership in the queue trace. -/
lemma mem_traceAux_netStart {p : ℚ} {outs : Nat → Bool} :
    ∀ (cmds : List (List Char)) (a j : Nat),
      (Ev.netStart j ∈ transportTraceAux p outs a cmds ↔
        a ≤ j ∧ j < a + cmds.length) := by
  intro cmds
  induction cmds with
  | nil =>
    intro a j
    simp [transportTraceAux]
    try omega
  | cons cmd rest ih =>
    intro a j
    rw [transportTraceAux, List.mem_append, mem_handlerEvents_netStart, ih (a + 1)]
    simp only [List.length_cons]
    omega

/-- `reply` membership in the queue trace: every submission gets exactly
its oracle outcome delivered. -/
lemma mem_traceAux_reply {p : ℚ} {outs : Nat → Bool} :
    ∀ (cmds : List (List Char)) (a j : Nat) (b : Bool),
      (Ev.reply j b ∈ transportTraceAux p outs a cmds ↔
        a ≤ j ∧ j < a + cmds.length ∧ b = outs j) := by
  intro cmds
  induction cmds with
  | nil =>
    intro a j b
    simp [transportTraceAux]
    try omega
  | cons cmd rest ih =>
    intro a j b
    rw [transportTraceAux, List.mem_append, mem_handlerEvents_reply, ih (a + 1)]
    simp only [List.length_cons]
    constructor
    · rintro (⟨rfl, rfl⟩ | ⟨h1, h2, h3⟩)
      · exact ⟨Nat.le_refl j, by omega, rfl⟩
      · exact ⟨by omega, by omega, h3⟩
    · rintro ⟨h1, h2, h3⟩
      by_cases hj : j = a
      · subst hj
        exact Or.inl ⟨rfl, h3⟩
      · exact Or.inr ⟨by omega, by omega, h3⟩

/-- `paceWait` membership in the queue trace. -/
lemma mem_traceAux_pace {p : ℚ} {outs : Nat → Bool} :
    ∀ (cmds : List (List Char)) (a j : Nat),
      (Ev.paceWait j ∈ transportTraceAux p outs a cmds ↔
        a ≤ j ∧ j < a + cmds.length ∧ outs j = true ∧
        (isControlCmd (jsTrim (cmds.getD (j - a) [])) && decide (0 < p)) = true) := by
  intro cmds
  induction cmds with
  | nil =>
    intro a j
    simp [transportTraceAux]
    try omega
  | cons cmd rest ih =>
    intro a j
    rw [transportTraceAux, List.mem_append, mem_handlerEvents_pace, ih (a + 1)]
    simp only [List.length_cons]
    constructor
    · rintro (⟨rfl, hok, hc⟩ | ⟨h1, h2, h3, h4⟩)
      · refine ⟨Nat.le_refl j, by omega, hok, ?_⟩
        simpa using hc
      · refine ⟨by omega, by omega, h3, ?_⟩
        have hidx : j - a = (j - (a + 1)) + 1 := by omega
        rw [hidx]
        simpa using h4
    · rintro ⟨h1, h2, h3, h4⟩
      by_cases hj : j = a
      · subst hj
        refine Or.inl ⟨rfl, h3, ?_⟩
        simpa using h4
      · refine Or.inr ⟨by omega, by omega, h3, ?_⟩
        have hidx : j - a = (j - (a + 1)) + 1 := by omega
        rw [hidx] at h4
        simpa using h4

/-- Pairwise comparison holds on a list whose events all share one
submission index. -/
lemma pairwise_le_of_const_idx {l : List Ev} {i : Nat} (h : ∀ e ∈ l, evIdx e = i) :
    List.Pairwise (fun x y => evIdx x ≤ evIdx y) l := by
  induction l with
  | nil => exact List.Pairwise.nil
  | cons a t ih =>
    refine List.Pairwise.cons ?_ (ih fun e he => h e (List.mem_cons_of_mem a he))
    intro b hb
    rw [h a (List.mem_cons_self a t), h b (List.mem_cons_of_mem a hb)]

/-- All events of the queue trace starting at `a` have index at least
`a`. -/
lemma traceAux_tag_ge {p : ℚ} {outs : Nat → Bool} :
    ∀ (cmds : List (List Char)) (a : Nat) (e : Ev),
      e ∈ transportTraceAux p outs a cmds → a ≤ evIdx e := by
  intro cmds
  induction cmds with
  | nil =>
    intro a e h
    simp [transportTraceAux] at h
  | cons cmd rest ih =>
    intro a e h
    rcases List.mem_append.mp h with h | h
    · rw [evIdx_of_mem_handlerEvents h]
    · have := ih (a + 1) e h
      omega

/-- Submission indices are nondecreasing along the queue trace: the
handlers run back to back in submission order. -/
lemma traceAux_tag_pairwise (p : ℚ) (outs : Nat → Bool) :
    ∀ (cmds : List (List Char)) (a : Nat),
      List.Pairwise (fun x y => evIdx x ≤ evIdx y) (transportTraceAux p outs a cmds) := by
  intro cmds
  induction cmds with
  | nil =>
    intro a
    simp [transportTraceAux]
  | cons cmd rest ih =>
    intro a
    rw [transportTraceAux]
    apply List.pairwise_append.mpr
    refine ⟨pairwise_le_of_const_idx (fun e he => evIdx_of_mem_handlerEvents he),
      ih (a + 1), ?_⟩
    intro x hx y hy
    rw [evIdx_of_mem_handlerEvents hx]
    have := traceAux_tag_ge rest (a + 1) y hy
    omega

/-- Any event with a smaller submission index occurs before any event
with a larger one. -/
lemma before_of_mem_tag_lt {tr : List Ev}
    (hpw : List.Pairwise (fun x y => evIdx x ≤ evIdx y) tr) {a b : Ev}
    (ha : a ∈ tr) (hb : b ∈ tr) (hab : evIdx a < evIdx b) : before tr a b := by
  obtain ⟨k₁, hk₁⟩ := List.get?_of_mem ha
  obtain ⟨k₂, hk₂⟩ := List.get?_of_mem hb
  obtain ⟨hl₁, hg₁⟩ := List.get?_eq_some.mp hk₁
  obtain ⟨hl₂, hg₂⟩ := List.get?_eq_some.mp hk₂
  refine ⟨k₁, k₂, ?_, hk₁, hk₂⟩
  rcases Nat.lt_trichotomy k₁ k₂ with h | h | h
  · exact h
  · exfalso
    subst h
    have hae : a = b := by
      rw [← hg₁, ← hg₂]
    rw [hae] at hab
    omega
  · exfalso
    have hpair := List.pairwise_iff_get.mp hpw ⟨k₂, hl₂⟩ ⟨k₁, hl₁⟩ (by simpa using h)
    rw [hg₁, hg₂] at hpair
    omega

/-- Block decomposition of the queue trace around submission `j`. -/
lemma traceAux_decomp (p : ℚ) (outs : Nat → Bool) :
    ∀ (j a : Nat) (cmds : List (List Char)), j < cmds.length →
      transportTraceAux p outs a cmds =
        transportTraceAux p outs a (cmds.take j) ++
        (handlerEvents (isControlCmd (jsTrim (cmds.getD j []))) p (a + j) (outs (a + j)) ++
         transportTraceAux p outs (a + j + 1) (cmds.drop (j + 1))) := by
  intro j
  induction j with
  | zero =>
    intro a cmds hlen
    cases cmds with
    | nil => simp at hlen
    | cons cmd rest =>
      simp only [List.take_zero, List.getD, List.drop_succ_cons, List.drop_zero]
      rw [transportTraceAux, transportTraceAux]
      simp
  | succ j ihj =>
    intro a cmds hlen
    cases cmds with
    | nil => simp at hlen
    | cons cmd rest =>
      have hlen' : j < rest.length := by
        simp only [List.length_cons] at hlen
        omega
      rw [transportTraceAux, ihj (a + 1) rest hlen']
      simp only [List.take_succ_cons, List.getD_cons_succ, List.drop_succ_cons]
      rw [transportTraceAux]
      simp only [List.append_assoc]
      have harith : a + 1 + j = a + (j + 1) := by omega
      rw [harith]

/-- The tail of a handler block (pacing sleep and reply delivery)
contains no network events. -/
lemma handlerTail_no_net {c : Bool} {p : ℚ} {i : Nat} {ok : Bool} :
    ∀ e ∈ (if ok then
        (if c && decide (0 < p) then [Ev.paceWait i] else []) ++ [Ev.reply i true]
      else [Ev.reply i false]), evNetDelta e = 0 := by
  intro e he
  cases ok with
  | false =>
    simp at he
    subst he
    rfl
  | true =>
    by_cases hc : (c && decide (0 < p)) = true <;> simp [hc] at he
    · rcases he with rfl | rfl <;> rfl
    · subst he
      rfl

/-- The tail of a handler block touches neither the network counter nor
the `_pending` counter. -/
lemma handlerTail_no_pend {c : Bool} {p : ℚ} {i : Nat} {ok : Bool} :
    ∀ e ∈ (if ok then
        (if c && decide (0 < p) then [Ev.paceWait i] else []) ++ [Ev.reply i true]
      else [Ev.reply i false]), evPendDelta e = 0 := by
  intro e he
  cases ok with
  | false =>
    simp at he
    subst he
    rfl
  | true =>
    by_cases hc : (c && decide (0 < p)) = true <;> simp [hc] at he
    · rcases he with rfl | rfl <;> rfl
    · subst he
      rfl

/-- A list of events without network events has zero in-flight balance. -/
lemma netInFlight_zero_of_no_net {l : List Ev} (h : ∀ e ∈ l, evNetDelta e = 0) :
    netInFlight l = 0 := by
  simp only [netInFlight]
  apply List.sum_eq_zero
  intro x hx
  obtain ⟨e, he, rfl⟩ := List.mem_map.mp hx
  exact h e he

/-- A list of events without pending events has zero pending balance. -/
lemma pendingValue_zero_of_no_pend {l : List Ev} (h : ∀ e ∈ l, evPendDelta e = 0) :
    pendingValue l = 0 := by
  simp only [pendingValue]
  apply List.sum_eq_zero
  intro x hx
  obtain ⟨e, he, rfl⟩ := List.mem_map.mp hx
  exact h e he

lemma netInFlight_append (l₁ l₂ : List Ev) :
    netInFlight (l₁ ++ l₂) = netInFlight l₁ + netInFlight l₂ := by
  simp [netInFlight]

lemma pendingValue_append (l₁ l₂ : List Ev) :
    pendingValue (l₁ ++ l₂) = pendingValue l₁ + pendingValue l₂ := by
  simp [pendingValue]

/-- Every prefix of one handler block keeps the number of in-flight
network exchanges between 0 and 1, and the full block balances to 0. -/
lemma netInFlight_take_handler (c : Bool) (p : ℚ) (i : Nat) (ok : Bool) (k : Nat) :
    0 ≤ netInFlight ((handlerEvents c p i ok).take k) ∧
    netInFlight ((handlerEvents c p i ok).take k) ≤ 1 := by
  have htail : ∀ m, netInFlight ((if ok then
      (if c && decide (0 < p) then [Ev.paceWait i] else []) ++ [Ev.reply i true]
    else [Ev.reply i false]).take m) = 0 := by
    intro m
    exact netInFlight_zero_of_no_net
      (fun e he => handlerTail_no_net e (List.take_subset m _ he))
  rcases k with _ | _ | _ | _ | m
  · constructor <;> simp [netInFlight]
  · constructor <;>
      simp [handlerEvents, List.take_succ_cons, netInFlight, evNetDelta]
  · constructor <;>
      simp [handlerEvents, List.take_succ_cons, netInFlight, evNetDelta]
  · constructor <;>
      simp [handlerEvents, List.take_succ_cons, netInFlight, evNetDelta]
  · have heq : (handlerEvents c p i ok).take (m + 4) =
        [Ev.pendInc i, Ev.netStart i, Ev.netEnd i ok, Ev.pendDec i] ++
        ((if ok then
            (if c && decide (0 < p) then [Ev.paceWait i] else []) ++ [Ev.reply i true]
          else [Ev.reply i false]).take m) := by
      simp [handlerEvents, List.take_succ_cons]
    rw [heq, netInFlight_append, htail m]
    constructor <;> simp [netInFlight, evNetDelta]

/-- The full handler block balances the in-flight count to 0. -/
lemma netInFlight_handler (c : Bool) (p : ℚ) (i : Nat) (ok : Bool) :
    netInFlight (handlerEvents c p i ok) = 0 := by
  have htail : netInFlight (if ok then
      (if c && decide (0 < p) then [Ev.paceWait i] else []) ++ [Ev.reply i true]
    else [Ev.reply i false]) = 0 :=
    netInFlight_zero_of_no_net handlerTail_no_net
  rw [handlerEvents, netInFlight_append, htail]
  simp [netInFlight, evNetDelta]

/-- Every prefix of one handler block keeps the `_pending` counter
between 0 and 1 and the pending-plus-delivered budget at most 1. -/
lemma pendingValue_take_handler (c : Bool) (p : ℚ) (i : Nat) (ok : Bool) (k : Nat) :
    0 ≤ pendingValue ((handlerEvents c p i ok).take k) ∧
    pendingValue ((handlerEvents c p i ok).take k) ≤ 1 ∧
    pendingValue ((handlerEvents c p i ok).take k) +
      (repliesDelivered ((handlerEvents c p i ok).take k) : ℤ) ≤ 1 := by
  have htail : ∀ m, pendingValue ((if ok then
      (if c && decide (0 < p) then [Ev.paceWait i] else []) ++ [Ev.reply i true]
    else [Ev.reply i false]).take m) = 0 := by
    intro m
    exact pendingValue_zero_of_no_pend
      (fun e he => handlerTail_no_pend e (List.take_subset m _ he))
  have htailrep : ∀ m, (repliesDelivered ((if ok then
      (if c && decide (0 < p) then [Ev.paceWait i] else []) ++ [Ev.reply i true]
    else [Ev.reply i false]).take m) : ℤ) ≤ 1 := by
    intro m
    have hfull : repliesDelivered (if ok then
        (if c && decide (0 < p) then [Ev.paceWait i] else []) ++ [Ev.reply i true]
      else [Ev.reply i false]) = 1 := by
      cases ok with
      | false => rfl
      | true =>
        by_cases hc : (c && decide (0 < p)) = true <;>
          simp [hc, repliesDelivered, isReplyEv, List.countP_append, List.countP_cons]
    have hmono := (List.take_sublist m (if ok then
        (if c && decide (0 < p) then [Ev.paceWait i] else []) ++ [Ev.reply i true]
      else [Ev.reply i false])).countP_le isReplyEv
    simp only [repliesDelivered] at hfull ⊢
    omega
  rcases k with _ | _ | _ | _ | m
  · refine ⟨by simp [pendingValue], by simp [pendingValue], by
      simp [pendingValue, repliesDelivered]⟩
  · refine ⟨?_, ?_, ?_⟩ <;>
      simp [handlerEvents, List.take_succ_cons, pendingValue, evPendDelta,
        repliesDelivered, isReplyEv, List.countP_cons]
  · refine ⟨?_, ?_, ?_⟩ <;>
      simp [handlerEvents, List.take_succ_cons, pendingValue, evPendDelta,
        repliesDelivered, isReplyEv, List.countP_cons]
  · refine ⟨?_, ?_, ?_⟩ <;>
      simp [handlerEvents, List.take_succ_cons, pendingValue, evPendDelta,
        repliesDelivered, isReplyEv, List.countP_cons]
  · have heq : (handlerEvents c p i ok).take (m + 4) =
        [Ev.pendInc i, Ev.netStart i, Ev.netEnd i ok, Ev.pendDec i] ++
        ((if ok then
            (if c && decide (0 < p) then [Ev.paceWait i] else []) ++ [Ev.reply i true]
          else [Ev.reply i false]).take m) := by
      simp [handlerEvents, List.take_succ_cons]
    rw [heq]
    rw [pendingValue_append, htail m]
    have hrep := htailrep m
    have hhead : pendingValue [Ev.pendInc i, Ev.netStart i, Ev.netEnd i ok, Ev.pendDec i] = 0 := by
      simp [pendingValue, evPendDelta]
    have hheadrep : repliesDelivered [Ev.pendInc i, Ev.netStart i, Ev.netEnd i ok, Ev.pendDec i] = 0 := by
      rfl
    rw [hhead]
    simp only [repliesDelivered, List.countP_append] at hrep ⊢
    simp only [repliesDelivered] at hheadrep
    rw [hheadrep]
    omega

/-- The full handler block balances `_pending` to 0 and delivers exactly
one reply. -/
lemma pendingValue_handler (c : Bool) (p : ℚ) (i : Nat) (ok : Bool) :
    pendingValue (handlerEvents c p i ok) = 0 ∧
    repliesDelivered (handlerEvents c p i ok) = 1 := by
  have htail : pendingValue (if ok then
      (if c && decide (0 < p) then [Ev.paceWait i] else []) ++ [Ev.reply i true]
    else [Ev.reply i false]) = 0 :=
    pendingValue_zero_of_no_pend handlerTail_no_pend
  constructor
  · rw [handlerEvents, pendingValue_append, htail]
    simp [pendingValue, evPendDelta]
  · cases ok with
    | false => rfl
    | true =>
      by_cases hc : (c && decide (0 < p)) = true <;>
        simp [handlerEvents, hc, repliesDelivered, isReplyEv, List.countP_append,
          List.countP_cons]

/-- Single-flight invariant: every prefix of the queue trace has between
0 and 1 network exchanges in flight. -/
lemma netInFlight_take_traceAux (p : ℚ) (outs : Nat → Bool) :
    ∀ (cmds : List (List Char)) (a k : Nat),
      0 ≤ netInFlight ((transportTraceAux p outs a cmds).take k) ∧
      netInFlight ((transportTraceAux p outs a cmds).take k) ≤ 1 := by
  intro cmds
  induction cmds with
  | nil =>
    intro a k
    constructor <;> simp [transportTraceAux, netInFlight]
  | cons cmd rest ih =>
    intro a k
    rw [transportTraceAux, List.take_append_eq_append_take, netInFlight_append]
    by_cases hk :
        k ≤ (handlerEvents (isControlCmd (jsTrim cmd)) p a (outs a)).length
    · have h0 : k - (handlerEvents (isControlCmd (jsTrim cmd)) p a (outs a)).length = 0 := by
        omega
      rw [h0]
      simp only [List.take_zero]
      have hb := netInFlight_take_handler (isControlCmd (jsTrim cmd)) p a (outs a) k
      have : netInFlight ([] : List Ev) = 0 := by simp [netInFlight]
      omega
    · have hfull : (handlerEvents (isControlCmd (jsTrim cmd)) p a (outs a)).take k =
          handlerEvents (isControlCmd (jsTrim cmd)) p a (outs a) :=
        List.take_of_length_le (by omega)
      rw [hfull, netInFlight_handler]
      have hb := ih (a + 1)
        (k - (handlerEvents (isControlCmd (jsTrim cmd)) p a (outs a)).length)
      omega

/-- Pending-counter invariant: every prefix of the queue trace keeps
`_pending` between 0 and 1, and pending plus delivered replies never
exceeds the number of submissions. -/
lemma pendingValue_take_traceAux (p : ℚ) (outs : Nat → Bool) :
    ∀ (cmds : List (List Char)) (a k : Nat),
      0 ≤ pendingValue ((transportTraceAux p outs a cmds).take k) ∧
      pendingValue ((transportTraceAux p outs a cmds).take k) ≤ 1 ∧
      pendingValue ((transportTraceAux p outs a cmds).take k) +
        (repliesDelivered ((transportTraceAux p outs a cmds).take k) : ℤ) ≤
        cmds.length := by
  intro cmds
  induction cmds with
  | nil =>
    intro a k
    refine ⟨by simp [transportTraceAux, pendingValue], by
      simp [transportTraceAux, pendingValue], by
      simp [transportTraceAux, pendingValue, repliesDelivered]⟩
  | cons cmd rest ih =>
    intro a k
    rw [transportTraceAux, List.take_append_eq_append_take, pendingValue_append]
    have hreplapp : (repliesDelivered
        (((handlerEvents (isControlCmd (jsTrim cmd)) p a (outs a)).take k) ++
          ((transportTraceAux p outs (a + 1) rest).take
            (k - (handlerEvents (isControlCmd (jsTrim cmd)) p a (outs a)).length))) : ℤ) =
        (repliesDelivered ((handlerEvents (isControlCmd (jsTrim cmd)) p a (outs a)).take k) : ℤ) +
        (repliesDelivered ((transportTraceAux p outs (a + 1) rest).take
            (k - (handlerEvents (isControlCmd (jsTrim cmd)) p a (outs a)).length)) : ℤ) := by
      simp [repliesDelivered, List.countP_append]
    rw [hreplapp]
    by_cases hk :
        k ≤ (handlerEvents (isControlCmd (jsTrim cmd)) p a (outs a)).length
    · have h0 : k - (handlerEvents (isControlCmd (jsTrim cmd)) p a (outs a)).length = 0 := by
        omega
      rw [h0]
      simp only [List.take_zero]
      have hb := pendingValue_take_handler (isControlCmd (jsTrim cmd)) p a (outs a) k
      have hz : pendingValue ([] : List Ev) = 0 := by simp [pendingValue]
      have hzr : repliesDelivered ([] : List Ev) = 0 := rfl
      rw [hz, hzr]
      simp only [List.length_cons]
      push_cast
      omega
    · have hfull : (handlerEvents (isControlCmd (jsTrim cmd)) p a (outs a)).take k =
          handlerEvents (isControlCmd (jsTrim cmd)) p a (outs a) :=
        List.take_of_length_le (by omega)
      rw [hfull]
      obtain ⟨hp0, hr1⟩ := pendingValue_handler (isControlCmd (jsTrim cmd)) p a (outs a)
      rw [hp0, hr1]
      have hb := ih (a + 1)
        (k - (handlerEvents (isControlCmd (jsTrim cmd)) p a (outs a)).length)
      simp only [List.length_cons]
      push_cast
      omega

/-- Over the whole trace the `_pending` counter returns to 0 and every
submission has delivered its reply. -/
lemma pendingValue_traceAux_full (p : ℚ) (outs : Nat → Bool) :
    ∀ (cmds : List (List Char)) (a : Nat),
      pendingValue (transportTraceAux p outs a cmds) = 0 ∧
      repliesDelivered (transportTraceAux p outs a cmds) = cmds.length := by
  intro cmds
  induction cmds with
  | nil =>
    intro a
    exact ⟨by simp [transportTraceAux, pendingValue], rfl⟩
  | cons cmd rest ih =>
    intro a
    obtain ⟨hp, hr⟩ := pendingValue_handler (isControlCmd (jsTrim cmd)) p a (outs a)
    obtain ⟨ihp, ihr⟩ := ih (a + 1)
    rw [transportTraceAux]
    constructor
    · rw [pendingValue_append, hp, ihp]
      omega
    · simp only [repliesDelivered, List.countP_append] at hr ihr ⊢
      rw [hr, ihr, List.length_cons]
      omega

/- ----------------------------------------------------------------- -/
/- Claim C3 (confirmed)                                               -/
/- ----------------------------------------------------------------- -/

/-- Claim C3: requests start in strict FIFO submission order, at most one
network exchange is in flight at any instant, replies are delivered in
submission order, and a failed request never prevents any later queued
request from running (starts and replies happen for every submission, for
every outcome oracle). -/
theorem transport_fifo_single_flight :
    ∀ (paceMs : ℚ) (outs : Nat → Bool) (cmds : List (List Char)),
      (∀ i j, i < j → j < cmds.length →
        before (transportTrace paceMs outs cmds) (Ev.netStart i) (Ev.netStart j)) ∧
      (∀ k, 0 ≤ netInFlight ((transportTrace paceMs outs cmds).take k) ∧
            netInFlight ((transportTrace paceMs outs cmds).take k) ≤ 1) ∧
      (∀ i j, i < j → j < cmds.length →
        before (transportTrace paceMs outs cmds)
          (Ev.reply i (outs i)) (Ev.reply j (outs j))) ∧
      (∀ i, i < cmds.length →
        Ev.netStart i ∈ transportTrace paceMs outs cmds ∧
        Ev.reply i (outs i) ∈ transportTrace paceMs outs cmds) := by
  intro p outs cmds
  simp only [transportTrace]
  have hpw := traceAux_tag_pairwise p outs cmds 0
  refine ⟨?_, ?_, ?_, ?_⟩
  · intro i j hij hj
    refine before_of_mem_tag_lt hpw ?_ ?_ ?_
    · exact (mem_traceAux_netStart cmds 0 i).mpr ⟨Nat.zero_le i, by omega⟩
    · exact (mem_traceAux_netStart cmds 0 j).mpr ⟨Nat.zero_le j, by omega⟩
    · simpa [evIdx] using hij
  · intro k
    exact netInFlight_take_traceAux p outs cmds 0 k
  · intro i j hij hj
    refine before_of_mem_tag_lt hpw ?_ ?_ ?_
    · exact (mem_traceAux_reply cmds 0 i (outs i)).mpr ⟨Nat.zero_le i, by omega, rfl⟩
    · exact (mem_traceAux_reply cmds 0 j (outs j)).mpr ⟨Nat.zero_le j, by omega, rfl⟩
    · simpa [evIdx] using hij
  · intro i hi
    exact ⟨(mem_traceAux_netStart cmds 0 i).mpr ⟨Nat.zero_le i, by omega⟩,
      (mem_traceAux_reply cmds 0 i (outs i)).mpr ⟨Nat.zero_le i, by omega, rfl⟩⟩

/-- Witness for C3: three concrete submissions where the middle one
fails; starts stay ordered, the flight bound holds, and the third request
still runs and replies. -/
theorem transport_fifo_single_flight_witness :
    before (transportTrace 0 (fun i => i != 1)
        [ "$A5".toList, "$A3 1 0".toList, "$A7 1".toList ])
      (Ev.netStart 0) (Ev.netStart 1) ∧
    netInFlight ((transportTrace 0 (fun i => i != 1)
        [ "$A5".toList, "$A3 1 0".toList, "$A7 1".toList ]).take 6) ≤ 1 ∧
    before (transportTrace 0 (fun i => i != 1)
        [ "$A5".toList, "$A3 1 0".toList, "$A7 1".toList ])
      (Ev.reply 0 true) (Ev.reply 2 true) ∧
    Ev.netStart 2 ∈ transportTrace 0 (fun i => i != 1)
        [ "$A5".toList, "$A3 1 0".toList, "$A7 1".toList ] := by
  refine ⟨?_, ?_, ?_, ?_⟩
  · exact (transport_fifo_single_flight 0 _ _).1 0 1 (by omega) (by decide)
  · exact ((transport_fifo_single_flight 0 _ _).2.1 6).2
  · exact (transport_fifo_single_flight 0 _ _).2.2.1 0 2 (by omega) (by decide)
  · exact ((transport_fifo_single_flight 0 _ _).2.2.2 2 (by decide)).1

/- ----------------------------------------------------------------- -/
/- Claim C5 (corrected)                                               -/
/- ----------------------------------------------------------------- -/

/-- Claim C5 as stated is false: the pacing delay is NOT awaited when the
request fails.  In the queued handler `await run()` rethrows before
`_applyControlPace` is reached, so a failed control command (here
`$A3 1 0` with positive pace 100ms) produces no pacing event at all. -/
theorem pace_claimC5_counterexample :
    isControlCmd (jsTrim ("$A3 1 0".toList)) = true ∧
    (0 : ℚ) < 100 ∧
    Ev.paceWait 0 ∉ transportTrace 100 (fun _ => false) [ "$A3 1 0".toList ] := by
  refine ⟨by decide, by decide, by decide⟩

/-- Claim C5, amended to the code: the pacing delay runs exactly after a
SUCCESSFUL control command with a positive configured pace — a failed
request (control or not) and a status/query command are never followed by
a pacing delay; when the pace runs, it happens after the command's
network exchange settles and before any later submission starts. -/
theorem pace_after_successful_control :
    ∀ (paceMs : ℚ) (outs : Nat → Bool) (cmds : List (List Char)),
      (∀ i, Ev.paceWait i ∈ transportTrace paceMs outs cmds ↔
        (i < cmds.length ∧ outs i = true ∧
         isControlCmd (jsTrim (cmds.getD i [])) = true ∧ 0 < paceMs)) ∧
      (∀ i j, i < j →
        Ev.paceWait i ∈ transportTrace paceMs outs cmds →
        Ev.netStart j ∈ transportTrace paceMs outs cmds →
        before (transportTrace paceMs outs cmds) (Ev.paceWait i) (Ev.netStart j)) ∧
      (∀ i, Ev.paceWait i ∈ transportTrace paceMs outs cmds →
        before (transportTrace paceMs outs cmds) (Ev.netEnd i true) (Ev.paceWait i)) := by
  intro p outs cmds
  simp only [transportTrace]
  have hpw := traceAux_tag_pairwise p outs cmds 0
  have hmemiff : ∀ i, Ev.paceWait i ∈ transportTraceAux p outs 0 cmds ↔
      (i < cmds.length ∧ outs i = true ∧
       isControlCmd (jsTrim (cmds.getD i [])) = true ∧ 0 < p) := by
    intro i
    rw [mem_traceAux_pace cmds 0 i]
    simp only [Nat.zero_le, Nat.zero_add, Nat.sub_zero, true_and,
      Bool.and_eq_true, decide_eq_true_eq]
    try tauto
  refine ⟨hmemiff, ?_, ?_⟩
  · intro i j hij hpace hstart
    refine before_of_mem_tag_lt hpw hpace hstart ?_
    simpa [evIdx] using hij
  · intro i hpace
    obtain ⟨hi, houts, hctrl, hp⟩ := (hmemiff i).mp hpace
    have hdec := traceAux_decomp p outs i 0 cmds hi
    simp only [Nat.zero_add] at hdec
    have hblock : handlerEvents (isControlCmd (jsTrim (cmds.getD i []))) p i (outs i) =
        [Ev.pendInc i, Ev.netStart i, Ev.netEnd i true, Ev.pendDec i,
         Ev.paceWait i, Ev.reply i true] := by
      rw [hctrl, houts]
      simp [handlerEvents, hp]
    rw [hblock] at hdec
    set pre := transportTraceAux p outs 0 (cmds.take i) with hpre
    refine ⟨pre.length + 2, pre.length + 4, by omega, ?_, ?_⟩
    · rw [hdec, List.get?_append_right (by omega)]
      have hidx : pre.length + 2 - pre.length = 2 := by omega
      rw [hidx]
      rfl
    · rw [hdec, List.get?_append_right (by omega)]
      have hidx : pre.length + 4 - pre.length = 4 := by omega
      rw [hidx]
      rfl

/-- Witness for the amended C5 theorem: a successful `$A3` with pace
100ms paces before the next start; a status `$A5` never paces. -/
theorem pace_after_successful_control_witness :
    Ev.paceWait 0 ∈ transportTrace 100 (fun _ => true)
      [ "$A3 1 0".toList, "$A5".toList ] ∧
    before (transportTrace 100 (fun _ => true) [ "$A3 1 0".toList, "$A5".toList ])
      (Ev.paceWait 0) (Ev.netStart 1) ∧
    Ev.paceWait 1 ∉ transportTrace 100 (fun _ => true)
      [ "$A3 1 0".toList, "$A5".toList ] := by
  refine ⟨?_, ?_, ?_⟩
  · exact ((pace_after_successful_control 100 _ _).1 0).mpr
      ⟨by decide, rfl, by decide, by decide⟩
  · refine (pace_after_successful_control 100 _ _).2.1 0 1 (by omega) ?_ ?_
    · exact ((pace_after_successful_control 100 _ _).1 0).mpr
        ⟨by decide, rfl, by decide, by decide⟩
    · exact (mem_traceAux_netStart _ 0 1).mpr ⟨by omega, by decide⟩
  · intro hmem
    have := ((pace_after_successful_control 100 _ _).1 1).mp hmem
    exact absurd this.2.2.1 (by decide)

/- ----------------------------------------------------------------- -/
/- Claim C6 (corrected)                                               -/
/- ----------------------------------------------------------------- -/

/-- Claim C6 as stated is false: `_pending` is incremented only when a
request's `run()` starts, not at submission, so queued-but-unstarted
requests are not counted.  With two submissions and the first one just
started, the accepted-but-incomplete count is 2 while `pending` reads
1. -/
theorem pending_claimC6_counterexample :
    ¬ (pendingValue ((transportTrace 0 (fun _ => true)
          [ "$A5".toList, "$A5".toList ]).take 2) =
        (2 : ℤ) - (repliesDelivered ((transportTrace 0 (fun _ => true)
          [ "$A5".toList, "$A5".toList ]).take 2) : ℤ)) := by
  decide

/-- Claim C6, amended to the code: at every instant `_pending` counts
only the request whose `run()` has started and not yet completed — it is
always 0 or 1 (requests are serialized), never negative, and it is a
lower bound on the number of accepted submissions not yet completed
(pending plus delivered replies never exceeds the number of
submissions); when the whole queue drains it returns to 0 with every
reply delivered. -/
theorem pending_counts_running_request :
    ∀ (paceMs : ℚ) (outs : Nat → Bool) (cmds : List (List Char)),
      (∀ k, 0 ≤ pendingValue ((transportTrace paceMs outs cmds).take k) ∧
        pendingValue ((transportTrace paceMs outs cmds).take k) ≤ 1 ∧
        pendingValue ((transportTrace paceMs outs cmds).take k) +
          (repliesDelivered ((transportTrace paceMs outs cmds).take k) : ℤ) ≤
          cmds.length) ∧
      pendingValue (transportTrace paceMs outs cmds) = 0 ∧
      repliesDelivered (transportTrace paceMs outs cmds) = cmds.length := by
  intro p outs cmds
  simp only [transportTrace]
  refine ⟨fun k => pendingValue_take_traceAux p outs cmds 0 k, ?_, ?_⟩
  · exact (pendingValue_traceAux_full p outs cmds 0).1
  · exact (pendingValue_traceAux_full p outs cmds 0).2

/-- Witness for the amended C6 theorem on a concrete two-command
queue. -/
theorem pending_counts_running_request_witness :
    pendingValue ((transportTrace 0 (fun _ => true)
        [ "$A5".toList, "$A5".toList ]).take 2) ≤ 1 ∧
    repliesDelivered (transportTrace 0 (fun _ => true)
        [ "$A5".toList, "$A5".toList ]) = 2 := by
  constructor
  · exact ((pending_counts_running_request 0 _ _).1 2).2.1
  · exact (pending_counts_running_request 0 _ _).2.2

end NetBooter
